import Mathlib

/-!
# Verification of the SafeBuy compliance-evaluation core

Shallow embedding of `src/backend/evaluator.py` and
`src/backend/ai_extractor.py`: the normalizer, the heuristic extractor,
the field resolver, the enrichment step and the rule engine.  Machine
strings are `String`/`List Char`; Python `None`-able string fields are
`Option String`; code that can raise is modelled with `Except String`.
The static rule table (`rules.py`, external input per the spec) is an
explicit parameter of the engine, and the product record (`models.py`)
is modelled from the spec's data-model section.
-/

set_option maxHeartbeats 1000000

namespace SafeBuy

/-- ASCII whitespace, as matched by Python `\s`, `str.split()` and `str.strip()`. -/
def isWs (c : Char) : Bool :=
  c == ' ' || c == '\t' || c == '\n' || c == '\r' || c == '\x0b' || c == '\x0c'

/-- Python `str.lower()` on a character list (ASCII case folding). -/
def toLowerL (l : List Char) : List Char :=
  l.map Char.toLower

/-- Modelled from the spec: the Product Record of `models.py` (which is not
under `src/`), with exactly the attributes listed in spec section 3.  Every
attribute is an optional text field; `none` is the absent value. -/
structure ProductData where
  title : Option String
  brand : Option String
  manufacturer : Option String
  seller : Option String
  price : Option String
  description : Option String
  technical_details : Option String
  origin_country : Option String
  usage : Option String
  returns : Option String
  delivery : Option String
  warranty : Option String
  category : Option String
  ingredients : Option String
  expiry : Option String
  customer_care_contact : Option String
  importer : Option String
  packer : Option String
deriving DecidableEq, Repr

/-- The product record with every attribute absent. -/
def emptyProduct : ProductData :=
  ⟨none, none, none, none, none, none, none, none, none,
   none, none, none, none, none, none, none, none, none⟩

/-- Python truthiness of an optional string value: `val not in (None, "", [], {})`
restricted to text fields — `none` and the empty string are falsy. -/
def present (v : Option String) : Bool :=
  match v with
  | none => false
  | some s => decide (s ≠ "")

/-- Python `getattr(product, attr, None)`: the attribute of the product record
named `attr`, or `none` when the record has no such attribute. -/
def getAttr (p : ProductData) (attr : String) : Option String :=
  if attr = "title" then p.title
  else if attr = "brand" then p.brand
  else if attr = "manufacturer" then p.manufacturer
  else if attr = "seller" then p.seller
  else if attr = "price" then p.price
  else if attr = "description" then p.description
  else if attr = "technical_details" then p.technical_details
  else if attr = "origin_country" then p.origin_country
  else if attr = "usage" then p.usage
  else if attr = "returns" then p.returns
  else if attr = "delivery" then p.delivery
  else if attr = "warranty" then p.warranty
  else if attr = "category" then p.category
  else if attr = "ingredients" then p.ingredients
  else if attr = "expiry" then p.expiry
  else if attr = "customer_care_contact" then p.customer_care_contact
  else if attr = "importer" then p.importer
  else if attr = "packer" then p.packer
  else none

/-- The `SKIPPED_RULE_IDS` set of `evaluator.py` (membership only). -/
def SKIPPED_RULE_IDS : List String :=
  ["EC-02", "EC-03", "EC-05", "EC-07", "EC-09",
   "EC-11", "EC-12", "EC-15", "EC-ENV-01",
   "EC-08-AMEND",
   "CS-07", "CS-08"]

/-- The `ADVISORY_RULE_IDS` set of `evaluator.py`. -/
def ADVISORY_RULE_IDS : List String :=
  ["EC-10", "CS-05", "CS-06"]

/-- The `UNVERIFIABLE_FIELDS` set of `evaluator.py`. -/
def UNVERIFIABLE_FIELDS : List String :=
  ["ingredients", "expiry", "batch_no", "cruelty_free_cert", "epr_registration_no"]

/-- The `FIELD_ALIASES` table of `evaluator.py`, read with
`FIELD_ALIASES.get(field, [field])`. -/
def FIELD_ALIASES (field : String) : List String :=
  if field = "brand" then ["brand"]
  else if field = "manufacturer" then ["manufacturer"]
  else if field = "origin" then ["origin_country"]
  else if field = "origin_country" then ["origin_country"]
  else if field = "usage" then ["usage"]
  else if field = "description" then ["description"]
  else if field = "returns" then ["returns"]
  else if field = "delivery" then ["delivery"]
  else if field = "price" then ["price"]
  else [field]

/-- Literal match at the head of a character list: consume `lit` and return the
remainder, or `none` when the text does not start with `lit`. -/
def dropLit : List Char → List Char → Option (List Char)
  | [], s => some s
  | _ :: _, [] => none
  | x :: xs, y :: ys => if x == y then dropLit xs ys else none

/-- Boolean form of `dropLit`: does the text start with the literal? -/
def startsWithL : List Char → List Char → Bool
  | [], _ => true
  | _ :: _, [] => false
  | x :: xs, y :: ys => x == y && startsWithL xs ys

/-- Substring containment, Python's `needle in hay`. -/
def occursIn : List Char → List Char → Bool
  | needle, [] => startsWithL needle []
  | needle, c :: rest => startsWithL needle (c :: rest) || occursIn needle rest

/-- One unit token of the quantity pattern `\d+\s?(ml|l|g|kg)` of
`_field_exists` starts here. -/
def unitAt (l : List Char) : Bool :=
  startsWithL ['m', 'l'] l || startsWithL ['l'] l ||
  startsWithL ['g'] l || startsWithL ['k', 'g'] l

/-- Python `re.search(r"\d+\s?(ml|l|g|kg)", title)` viewed as a Boolean: some
digit is followed, directly or through one whitespace character, by a unit
token. -/
def quantityScan : List Char → Bool
  | [] => false
  | c :: rest =>
    (c.isDigit && (unitAt rest ||
      (match rest with
       | d :: rest2 => isWs d && unitAt rest2
       | [] => false))) || quantityScan rest

/-- The field resolver `_field_exists` of `evaluator.py`: `quantity` is derived
from the lowercased title, every other logical field resolves through the alias
table and counts as present when any aliased attribute holds a truthy value. -/
def field_exists (p : ProductData) (field : String) : Bool :=
  if field = "quantity" then
    quantityScan (toLowerL (p.title.getD "").data)
  else
    (FIELD_ALIASES field).any (fun attr => present (getAttr p attr))

/-- Characters kept by `normalize_text`: the complement of the character class
`[^\w\s\-.,]` removed by `re.sub` in `ai_extractor.py`. -/
def keepChar (c : Char) : Bool :=
  c.isAlphanum || c == '_' || isWs c || c == '-' || c == '.' || c == ','

/-- Python `re.sub(r"\s+", " ", ·)`: each maximal whitespace run becomes one
space.  The Boolean argument records whether the previous character was
whitespace (so the run is already represented). -/
def collapseWsAux : Bool → List Char → List Char
  | _, [] => []
  | prevWs, c :: rest =>
    if isWs c then
      (if prevWs then collapseWsAux true rest else ' ' :: collapseWsAux true rest)
    else c :: collapseWsAux false rest

/-- Remove the trailing whitespace run (the right half of Python `str.strip()`). -/
def dropTrailingWs : List Char → List Char
  | [] => []
  | c :: rest =>
    match dropTrailingWs rest with
    | [] => if isWs c then [] else [c]
    | r => c :: r

/-- Python `str.strip()`: drop the leading and the trailing whitespace run. -/
def stripL (l : List Char) : List Char :=
  dropTrailingWs (l.dropWhile isWs)

/-- The normalizer `normalize_text` of `ai_extractor.py`: falsy input gives
`None`; otherwise lowercase, remove every character outside `[\w\s\-.,]`,
collapse whitespace runs to one space, and strip. -/
def normalize_text (value : Option String) : Option String :=
  match value with
  | none => none
  | some s =>
    if s = "" then none
    else some (String.mk (stripL (collapseWsAux false ((toLowerL s.data).filter keepChar))))

/-- Regex suffix `\s*([^|]+)` applied after a matched `:` with Python
backtracking semantics: `\s*` is greedy, and when the greedy choice leaves
nothing for `[^|]+` (next character is `|` or end of input) it backs off by one
whitespace character, making that character the capture. -/
def capAfterColon (t : List Char) : Option (List Char) :=
  match t.dropWhile isWs with
  | [] => (t.takeWhile isWs).getLast?.map (fun w => [w])
  | c :: _ =>
    if c == '|' then (t.takeWhile isWs).getLast?.map (fun w => [w])
    else some ((t.dropWhile isWs).takeWhile (fun x => !(x == '|')))

/-- Match a sequence of literal words separated by `\s*` at the head of the
text, returning the remainder. -/
def matchWords : List (List Char) → List Char → Option (List Char)
  | [], s => some s
  | [w], s => dropLit w s
  | w :: w2 :: more, s =>
    match dropLit w s with
    | none => none
    | some rest => matchWords (w2 :: more) (rest.dropWhile isWs)

/-- Match one extractor pattern `words\s*:\s*([^|]+)` at the head of the text
and return the capture. -/
def matchPat (words : List (List Char)) (s : List Char) : Option (List Char) :=
  match matchWords words s with
  | none => none
  | some rest =>
    match rest.dropWhile isWs with
    | ':' :: r2 => capAfterColon r2
    | _ => none

/-- Python `re.search` for one extractor pattern: try the pattern at every
position, left to right. -/
def searchPat (words : List (List Char)) : List Char → Option (List Char)
  | [] => none
  | c :: rest =>
    match matchPat words (c :: rest) with
    | some g => some g
    | none => searchPat words rest

/-- Python `re.search` for the two-alternative origin pattern
`country of origin\s*:\s*([^|]+)|country as labeled\s*:\s*([^|]+)`: at each
position the left alternative is tried first; the match's group pair has the
capture in the slot of the alternative that matched. -/
def originGroups : List Char → Option (Option String × Option String)
  | [] => none
  | c :: rest =>
    match matchPat ["country of origin".data] (c :: rest) with
    | some g => some (some (String.mk g), none)
    | none =>
      match matchPat ["country as labeled".data] (c :: rest) with
      | some g => some (none, some (String.mk g))
      | none => originGroups rest

/-- Python `re.search` for `(expiry|best before)\s*:\s*([^|]+)`: the first
group captures the label alternative that matched, the second the value. -/
def expiryGroups : List Char → Option (String × String)
  | [] => none
  | c :: rest =>
    match matchPat ["expiry".data] (c :: rest) with
    | some g => some ("expiry", String.mk g)
    | none =>
      match matchPat ["best before".data] (c :: rest) with
      | some g => some ("best before", String.mk g)
      | none => expiryGroups rest

/-- Python `re.search` for `(toll free|customer care)[^|]*`: the trailing
`[^|]*` always matches, so the search succeeds at the leftmost occurrence of
either label, which is the single capture. -/
def careGroups : List Char → Option String
  | [] => none
  | c :: rest =>
    if startsWithL "toll free".data (c :: rest) then some "toll free"
    else if startsWithL "customer care".data (c :: rest) then some "customer care"
    else careGroups rest

/-- The group scan of `grab` in `heuristic_parse`: return the normalization of
the first truthy group (`for g in m.groups(): if g: return normalize_text(g)`),
or `None` when every group is falsy. -/
def grabGroups : List (Option String) → Option String
  | [] => none
  | none :: rest => grabGroups rest
  | some g :: rest => if g = "" then grabGroups rest else normalize_text (some g)

/-- The `grab` helper for a single-group pattern: search, then scan the groups. -/
def grabField (words : List (List Char)) (t : List Char) : Option String :=
  grabGroups [(searchPat words t).map String.mk]

/-- The mapping returned by `heuristic_parse`, with its keys in the insertion
order of the Python dict literal. -/
structure Parsed where
  brand : Option String
  manufacturer : Option String
  origin_country : Option String
  usage : Option String
  ingredients : Option String
  expiry : Option String
  customer_care_contact : Option String
  importer : Option String
  packer : Option String
deriving DecidableEq, Repr

/-- The empty mapping `{}`. -/
def emptyParsed : Parsed :=
  ⟨none, none, none, none, none, none, none, none, none⟩

/-- The heuristic parser of `ai_extractor.py`: lowercase the blob and apply one
pattern per logical field. -/
def heuristic_parse (text : String) : Parsed :=
  let t := toLowerL text.data
  { brand := grabField ["brand".data] t
    manufacturer := grabField ["manufacturer".data] t
    origin_country :=
      match originGroups t with
      | none => none
      | some gp => grabGroups [gp.1, gp.2]
    usage := grabField ["usage".data] t
    ingredients := grabField ["ingredients".data] t
    expiry :=
      match expiryGroups t with
      | none => none
      | some lc => grabGroups [some lc.1, some lc.2]
    customer_care_contact :=
      match careGroups t with
      | none => none
      | some lbl => grabGroups [some lbl]
    importer := grabField ["importer".data, "contact".data, "information".data] t
    packer := grabField ["packer".data, "contact".data, "information".data] t }

/-- The entry point `ai_parse_technical_details`: falsy text gives the empty
mapping, otherwise the heuristic parse. -/
def ai_parse_technical_details (text : String) : Parsed :=
  if text = "" then emptyParsed else heuristic_parse text

/-- Keyword test of the usage inference: any of `lotion`, `cream`, `moistur`
occurs in the lowercased title. -/
def keywordHit (title : String) : Bool :=
  ["lotion", "cream", "moistur"].any (fun k => occursIn k.data title.data)

/-- The usage half of `_infer_from_title`: when usage is falsy and the title
carries a personal-care keyword, set it to the fixed string. -/
def inferUsage (p : ProductData) (title : String) : ProductData :=
  if present p.usage then p
  else if keywordHit title then { p with usage := some "skin application" } else p

/-- Python `str.split()` (no separator): split on whitespace runs, discarding
empty pieces.  The accumulator holds the current word reversed. -/
def pySplitAux : List Char → List Char → List (List Char)
  | acc, [] => if acc = [] then [] else [acc.reverse]
  | acc, c :: rest =>
    if isWs c then
      (if acc = [] then pySplitAux [] rest else acc.reverse :: pySplitAux [] rest)
    else pySplitAux (c :: acc) rest

/-- Python `title = (product.title or "").lower()` of `_infer_from_title`. -/
def lowTitle (p : ProductData) : String :=
  String.mk (toLowerL (p.title.getD "").data)

/-- The brand/usage title inference `_infer_from_title` of `evaluator.py`.
When brand is falsy and the lowercased title is a non-empty string,
`title.split()[0]` is taken — which raises `IndexError` when the split of a
whitespace-only title is the empty list. -/
def infer_from_title (p : ProductData) : Except String ProductData :=
  if present p.brand = false ∧ lowTitle p ≠ "" then
    match pySplitAux [] (lowTitle p).data with
    | [] => .error "IndexError: list index out of range"
    | w :: _ => .ok (inferUsage { p with brand := some (String.mk w) } (lowTitle p))
  else .ok (inferUsage p (lowTitle p))

/-- The merge loop of `_enrich_product_with_ai`: for each key of the parsed
mapping, in dict order, write the parsed value onto the product only when the
product's own attribute is falsy.  Every key is an attribute of the record, so
the `hasattr` guard always holds. -/
def applyParsed (p : ProductData) (q : Parsed) : ProductData :=
  let p1 := if present p.brand then p else { p with brand := q.brand }
  let p2 := if present p1.manufacturer then p1 else { p1 with manufacturer := q.manufacturer }
  let p3 := if present p2.origin_country then p2 else { p2 with origin_country := q.origin_country }
  let p4 := if present p3.usage then p3 else { p3 with usage := q.usage }
  let p5 := if present p4.ingredients then p4 else { p4 with ingredients := q.ingredients }
  let p6 := if present p5.expiry then p5 else { p5 with expiry := q.expiry }
  let p7 := if present p6.customer_care_contact then p6
            else { p6 with customer_care_contact := q.customer_care_contact }
  let p8 := if present p7.importer then p7 else { p7 with importer := q.importer }
  if present p8.packer then p8 else { p8 with packer := q.packer }

/-- The enrichment step `_enrich_product_with_ai` of `evaluator.py`. -/
def enrich_product_with_ai (p : ProductData) : Except String ProductData :=
  if present p.technical_details = false then infer_from_title p
  else
    infer_from_title
      (applyParsed p (ai_parse_technical_details (p.technical_details.getD "")))

/-- A rule of the static rule table.  `category := none` models a rule record
whose category key is missing or `None` (the code reads it with
`rule.get("category", "all")` and both pass the gate, exactly like `"all"`). -/
structure Rule where
  id : String
  title : String
  severity : String
  category : Option String
  required_fields : List String
  suggestion : String
deriving DecidableEq, Repr

/-- A violation emitted by the rule engine. -/
structure Violation where
  rule_id : String
  severity : String
  description : String
  suggestion : String
deriving DecidableEq, Repr

/-- The category gate of `evaluate_compliance`:
`rule_category not in ("all", None, product.category)` skips the rule. -/
def category_gate (r : Rule) (p : ProductData) : Bool :=
  r.category == some "all" || r.category == none || r.category == p.category

/-- The severity-to-penalty map `{"HIGH": 20, "MEDIUM": 10, "LOW": 5}.get(sev, 0)`. -/
def sevPenalty (s : String) : Int :=
  if s = "HIGH" then 20 else if s = "MEDIUM" then 10 else if s = "LOW" then 5 else 0

/-- The missing-field set of one rule: required fields that are neither
unverifiable nor resolved by the field resolver, in declaration order. -/
def missingFields (p : ProductData) (r : Rule) : List String :=
  r.required_fields.filter
    (fun f => !(UNVERIFIABLE_FIELDS.contains f) && !(field_exists p f))

/-- One iteration of the rule loop of `evaluate_compliance`, acting on the
accumulated score and violation list. -/
def stepRule (p : ProductData) (acc : Int × List Violation) (r : Rule) :
    Int × List Violation :=
  if SKIPPED_RULE_IDS.contains r.id then acc
  else if !(category_gate r p) then acc
  else if missingFields p r = [] then acc
  else if ADVISORY_RULE_IDS.contains r.id then
    (acc.1, acc.2 ++ [⟨r.id, "LOW", r.title ++ " (advisory)", r.suggestion⟩])
  else
    (acc.1 - sevPenalty r.severity,
     acc.2 ++ [⟨r.id, r.severity,
                r.title ++ " – missing: " ++
                  String.intercalate ", " (missingFields p r),
                r.suggestion⟩])

/-- The result of one evaluation: the clamped risk score, the violations in
table order, and the enriched product (the in-place mutation of the argument). -/
structure EvalOut where
  risk_score : Int
  violations : List Violation
  product : ProductData
deriving DecidableEq, Repr

/-- The rule engine `evaluate_compliance` of `evaluator.py`, with the static
rule table (external input per the spec) as an explicit parameter. -/
def evaluate_compliance (rules : List Rule) (p : ProductData) : Except String EvalOut :=
  match enrich_product_with_ai p with
  | .error e => .error e
  | .ok p1 =>
    let res := rules.foldl (stepRule p1) (100, [])
    .ok ⟨max 0 res.1, res.2, p1⟩

/-- Fixture: a product with only a title, for the enrichment scenarios. -/
def lotionProduct : ProductData :=
  { emptyProduct with title := some "acme lotion" }

/-- Fixture: `lotionProduct` after title inference filled brand and usage. -/
def lotionEnriched : ProductData :=
  { emptyProduct with
      title := some "acme lotion"
      brand := some "acme"
      usage := some "skin application" }

/-- Fixture: a product with an existing brand and technical details offering a
competing brand. -/
def zetaProduct : ProductData :=
  { emptyProduct with
      brand := some "Zeta"
      technical_details := some "brand: acme | x" }

/-- Fixture: a product whose title is whitespace-only. -/
def wsTitleProduct : ProductData :=
  { emptyProduct with title := some " " }

/-- Fixture: a rule whose id is in the advisory set. -/
def advRule : Rule :=
  ⟨"EC-10", "Disclose seller", "HIGH", some "all", ["seller"], ""⟩

/-- Fixture: a rule whose id is in the skip set. -/
def skipRule : Rule :=
  ⟨"EC-02", "T", "HIGH", some "all", ["seller"], ""⟩

/-- Fixture: a rule with a severity outside HIGH/MEDIUM/LOW. -/
def critRule : Rule :=
  ⟨"R9", "T", "CRITICAL", some "all", ["seller"], ""⟩

/-- Fixture: a rule requiring only the unverifiable field `ingredients`. -/
def ingRule : Rule :=
  ⟨"R1", "T", "HIGH", some "all", ["ingredients"], ""⟩

/-- Spec-side reading of the tie-break rule of spec section 4.2: the first
non-absent captured group, groups checked left to right. -/
def firstNonAbsent : List (Option String) → Option String
  | [] => none
  | none :: rest => firstNonAbsent rest
  | some g :: _ => some g

/-- No two adjacent whitespace characters (whitespace runs are collapsed). -/
def noWsRun : List Char → Bool
  | c :: d :: rest => !(isWs c && isWs d) && noWsRun (d :: rest)
  | _ => true

/-! ## Basic lemmas about truthiness and the merge step -/

theorem present_some {s : String} (h : s ≠ "") : present (some s) = true := by
  simp [present, h]

theorem present_false_iff {v : Option String} :
    present v = false ↔ v = none ∨ v = some "" := by
  cases v <;> simp [present]

theorem applyParsed_title (p : ProductData) (q : Parsed) :
    (applyParsed p q).title = p.title := by
  simp [applyParsed, apply_ite (f := ProductData.title)]

theorem applyParsed_seller (p : ProductData) (q : Parsed) :
    (applyParsed p q).seller = p.seller := by
  simp [applyParsed, apply_ite (f := ProductData.seller)]

theorem applyParsed_brand (p : ProductData) (q : Parsed) :
    (applyParsed p q).brand = if present p.brand then p.brand else q.brand := by
  simp [applyParsed, apply_ite (f := ProductData.brand)]

theorem applyParsed_price (p : ProductData) (q : Parsed) :
    (applyParsed p q).price = p.price := by
  simp [applyParsed, apply_ite (f := ProductData.price)]

theorem applyParsed_description (p : ProductData) (q : Parsed) :
    (applyParsed p q).description = p.description := by
  simp [applyParsed, apply_ite (f := ProductData.description)]

theorem applyParsed_technical_details (p : ProductData) (q : Parsed) :
    (applyParsed p q).technical_details = p.technical_details := by
  simp [applyParsed, apply_ite (f := ProductData.technical_details)]

theorem applyParsed_returns (p : ProductData) (q : Parsed) :
    (applyParsed p q).returns = p.returns := by
  simp [applyParsed, apply_ite (f := ProductData.returns)]

theorem applyParsed_delivery (p : ProductData) (q : Parsed) :
    (applyParsed p q).delivery = p.delivery := by
  simp [applyParsed, apply_ite (f := ProductData.delivery)]

theorem applyParsed_warranty (p : ProductData) (q : Parsed) :
    (applyParsed p q).warranty = p.warranty := by
  simp [applyParsed, apply_ite (f := ProductData.warranty)]

theorem applyParsed_category (p : ProductData) (q : Parsed) :
    (applyParsed p q).category = p.category := by
  simp [applyParsed, apply_ite (f := ProductData.category)]

theorem applyParsed_manufacturer (p : ProductData) (q : Parsed) :
    (applyParsed p q).manufacturer =
      if present p.manufacturer then p.manufacturer else q.manufacturer := by
  simp [applyParsed, apply_ite (f := ProductData.manufacturer)]

theorem applyParsed_origin_country (p : ProductData) (q : Parsed) :
    (applyParsed p q).origin_country =
      if present p.origin_country then p.origin_country else q.origin_country := by
  simp [applyParsed, apply_ite (f := ProductData.origin_country)]

theorem applyParsed_usage (p : ProductData) (q : Parsed) :
    (applyParsed p q).usage = if present p.usage then p.usage else q.usage := by
  simp [applyParsed, apply_ite (f := ProductData.usage)]

theorem applyParsed_ingredients (p : ProductData) (q : Parsed) :
    (applyParsed p q).ingredients =
      if present p.ingredients then p.ingredients else q.ingredients := by
  simp [applyParsed, apply_ite (f := ProductData.ingredients)]

theorem applyParsed_expiry (p : ProductData) (q : Parsed) :
    (applyParsed p q).expiry = if present p.expiry then p.expiry else q.expiry := by
  simp [applyParsed, apply_ite (f := ProductData.expiry)]

theorem applyParsed_customer_care_contact (p : ProductData) (q : Parsed) :
    (applyParsed p q).customer_care_contact =
      if present p.customer_care_contact then p.customer_care_contact
      else q.customer_care_contact := by
  simp [applyParsed, apply_ite (f := ProductData.customer_care_contact)]

theorem applyParsed_importer (p : ProductData) (q : Parsed) :
    (applyParsed p q).importer =
      if present p.importer then p.importer else q.importer := by
  simp [applyParsed, apply_ite (f := ProductData.importer)]

theorem applyParsed_packer (p : ProductData) (q : Parsed) :
    (applyParsed p q).packer = if present p.packer then p.packer else q.packer := by
  simp [applyParsed, apply_ite (f := ProductData.packer)]

/-! ## Lemmas about the title inference -/

theorem inferUsage_cases (p : ProductData) (t : String) :
    inferUsage p t = p ∨ inferUsage p t = { p with usage := some "skin application" } := by
  unfold inferUsage
  split
  · exact Or.inl rfl
  · split
    · exact Or.inr rfl
    · exact Or.inl rfl

theorem inferUsage_usage_present (p : ProductData) (t : String)
    (h : present p.usage = true) : inferUsage p t = p := by
  simp [inferUsage, h]

theorem inferUsage_title (p : ProductData) (t : String) :
    (inferUsage p t).title = p.title := by
  rcases inferUsage_cases p t with h | h <;> rw [h]

theorem inferUsage_brand (p : ProductData) (t : String) :
    (inferUsage p t).brand = p.brand := by
  rcases inferUsage_cases p t with h | h <;> rw [h]

theorem inferUsage_technical_details (p : ProductData) (t : String) :
    (inferUsage p t).technical_details = p.technical_details := by
  rcases inferUsage_cases p t with h | h <;> rw [h]

theorem inferUsage_usage_not_present (p : ProductData) (t : String)
    (h : present (inferUsage p t).usage = false) : (inferUsage p t).usage = p.usage := by
  rcases inferUsage_cases p t with h2 | h2 <;> rw [h2]
  rw [h2] at h
  simp [present] at h

theorem inferUsage_idem (p : ProductData) (t : String) :
    inferUsage (inferUsage p t) t = inferUsage p t := by
  unfold inferUsage
  split
  · rename_i h
    simp [h]
  · rename_i h
    split
    · rename_i hk
      simp [present, hk]
    · simp [h]

/-! ## Lemmas about `infer_from_title` -/

theorem stringMk_ne_empty {w : List Char} (h : w ≠ []) : String.mk w ≠ "" := by
  intro he
  exact h (by simpa using congrArg String.data he)

theorem pySplitAux_ne_nil :
    ∀ (l acc w : List Char), w ∈ pySplitAux acc l → w ≠ [] := by
  intro l
  induction l with
  | nil =>
    intro acc w hw
    by_cases h : acc = [] <;> simp [pySplitAux, h] at hw
    subst hw
    simpa using h
  | cons c rest ih =>
    intro acc w hw
    unfold pySplitAux at hw
    by_cases hws : isWs c
    · simp only [hws, if_true] at hw
      by_cases h : acc = []
      · simp only [h, if_true] at hw
        exact ih [] w hw
      · simp only [h, if_false] at hw
        rcases List.mem_cons.mp hw with h2 | h2
        · subst h2
          simpa using h
        · exact ih [] w h2
    · simp only [hws, if_false] at hw
      exact ih (c :: acc) w hw

theorem lowTitle_congr {p p1 : ProductData} (h : p1.title = p.title) :
    lowTitle p1 = lowTitle p := by
  unfold lowTitle
  rw [h]

theorem ift_ok_cases {p p1 : ProductData} (h : infer_from_title p = .ok p1) :
    (present p.brand = false ∧ lowTitle p ≠ "" ∧
      ∃ w, w ≠ [] ∧
        p1 = inferUsage { p with brand := some (String.mk w) } (lowTitle p)) ∨
    ((present p.brand = true ∨ lowTitle p = "") ∧ p1 = inferUsage p (lowTitle p)) := by
  unfold infer_from_title at h
  split at h
  · rename_i hc
    split at h
    · exact absurd h (by simp)
    · rename_i w ws hw
      simp only [Except.ok.injEq] at h
      refine Or.inl ⟨hc.1, hc.2, w, ?_, h.symm⟩
      exact pySplitAux_ne_nil _ _ _ (hw ▸ List.mem_cons_self w ws)
  · rename_i hc
    simp only [Except.ok.injEq] at h
    refine Or.inr ⟨?_, h.symm⟩
    rcases not_and_or.mp hc with h2 | h2
    · exact Or.inl (by simpa using h2)
    · exact Or.inr (by simpa using h2)

theorem ift_ok_shape {p p1 : ProductData} (h : infer_from_title p = .ok p1) :
    ∃ b u, p1 = { p with brand := b, usage := u } := by
  rcases ift_ok_cases h with ⟨_, _, w, _, rfl⟩ | ⟨_, rfl⟩
  · rcases inferUsage_cases { p with brand := some (String.mk w) } (lowTitle p)
      with h2 | h2 <;> rw [h2] <;> exact ⟨_, _, rfl⟩
  · rcases inferUsage_cases p (lowTitle p) with h2 | h2 <;> rw [h2] <;> exact ⟨_, _, rfl⟩

theorem ift_ok_title {p p1 : ProductData} (h : infer_from_title p = .ok p1) :
    p1.title = p.title := by
  obtain ⟨b, u, rfl⟩ := ift_ok_shape h
  rfl

theorem ift_ok_technical_details {p p1 : ProductData}
    (h : infer_from_title p = .ok p1) : p1.technical_details = p.technical_details := by
  obtain ⟨b, u, rfl⟩ := ift_ok_shape h
  rfl

theorem ift_ok_brand_present {p p1 : ProductData} (h : infer_from_title p = .ok p1)
    (hp : present p.brand = true) : p1.brand = p.brand := by
  rcases ift_ok_cases h with ⟨hc, _, _, _, _⟩ | ⟨_, rfl⟩
  · rw [hp] at hc
    exact absurd hc (by simp)
  · exact inferUsage_brand p (lowTitle p)

theorem ift_ok_usage_present {p p1 : ProductData} (h : infer_from_title p = .ok p1)
    (hp : present p.usage = true) : p1.usage = p.usage := by
  rcases ift_ok_cases h with ⟨_, _, w, _, rfl⟩ | ⟨_, rfl⟩
  · rw [inferUsage_usage_present { p with brand := some (String.mk w) } (lowTitle p) hp]
  · rw [inferUsage_usage_present p (lowTitle p) hp]

theorem ift_ok_brand_not_present {p p1 : ProductData}
    (h : infer_from_title p = .ok p1) (hp : present p1.brand = false) :
    p1.brand = p.brand := by
  rcases ift_ok_cases h with ⟨_, _, w, hw, rfl⟩ | ⟨_, rfl⟩
  · rw [inferUsage_brand] at hp
    exact absurd hp (by simp [present_some (stringMk_ne_empty hw)])
  · exact inferUsage_brand p (lowTitle p)

theorem ift_ok_usage_not_present {p p1 : ProductData}
    (h : infer_from_title p = .ok p1) (hp : present p1.usage = false) :
    p1.usage = p.usage := by
  rcases ift_ok_cases h with ⟨_, _, w, hw, rfl⟩ | ⟨_, rfl⟩
  · exact inferUsage_usage_not_present _ _ hp
  · exact inferUsage_usage_not_present _ _ hp

theorem ift_idem {p p1 : ProductData} (h : infer_from_title p = .ok p1) :
    infer_from_title p1 = .ok p1 := by
  have hT : lowTitle p1 = lowTitle p := lowTitle_congr (ift_ok_title h)
  rcases ift_ok_cases h with ⟨hb, hne, w, hw, hshape⟩ | ⟨hc, hshape⟩
  · have hbrand : p1.brand = some (String.mk w) := by
      rw [hshape, inferUsage_brand]
    have hpres : present p1.brand = true := by
      rw [hbrand]
      exact present_some (stringMk_ne_empty hw)
    unfold infer_from_title
    rw [if_neg (by rw [hpres]; simp)]
    rw [hT, hshape, inferUsage_idem]
  · unfold infer_from_title
    rw [if_neg ?hneg]
    case hneg =>
      rintro ⟨h1, h2⟩
      rcases hc with h3 | h3
      · rw [hshape, inferUsage_brand, h3] at h1
        exact absurd h1 (by simp)
      · rw [hT, h3] at h2
        exact h2 rfl
    rw [hT, hshape, inferUsage_idem]

/-! ## Lemmas about the enrichment step -/

theorem productData_ext {a b : ProductData}
    (h1 : a.title = b.title) (h2 : a.brand = b.brand)
    (h3 : a.manufacturer = b.manufacturer) (h4 : a.seller = b.seller)
    (h5 : a.price = b.price) (h6 : a.description = b.description)
    (h7 : a.technical_details = b.technical_details)
    (h8 : a.origin_country = b.origin_country) (h9 : a.usage = b.usage)
    (h10 : a.returns = b.returns) (h11 : a.delivery = b.delivery)
    (h12 : a.warranty = b.warranty) (h13 : a.category = b.category)
    (h14 : a.ingredients = b.ingredients) (h15 : a.expiry = b.expiry)
    (h16 : a.customer_care_contact = b.customer_care_contact)
    (h17 : a.importer = b.importer) (h18 : a.packer = b.packer) : a = b := by
  cases a
  cases b
  simp_all

theorem merged_fix {pv pmv pqv qv : Option String}
    (h1 : present pv = false → pv = pmv)
    (h2 : pmv = if present pqv then pqv else qv) :
    (if present pv then pv else qv) = pv := by
  by_cases hc : present pv = true
  · rw [if_pos hc]
  · have hcf : present pv = false := by simpa using hc
    rw [if_neg (by rw [hcf]; simp)]
    by_cases ho : present pqv = true
    · rw [if_pos ho] at h2
      have : present pv = true := by rw [h1 hcf, h2]; exact ho
      rw [this] at hcf
      cases hcf
    · rw [if_neg ho] at h2
      rw [h1 hcf, h2]

theorem enrich_ok_fixed {p p1 : ProductData} (h : enrich_product_with_ai p = .ok p1) :
    p1.title = p.title ∧ p1.seller = p.seller ∧ p1.price = p.price ∧
    p1.description = p.description ∧
    p1.technical_details = p.technical_details ∧ p1.returns = p.returns ∧
    p1.delivery = p.delivery ∧ p1.warranty = p.warranty ∧
    p1.category = p.category := by
  unfold enrich_product_with_ai at h
  split at h
  · obtain ⟨b, u, rfl⟩ := ift_ok_shape h
    exact ⟨rfl, rfl, rfl, rfl, rfl, rfl, rfl, rfl, rfl⟩
  · obtain ⟨b, u, rfl⟩ := ift_ok_shape h
    set q := ai_parse_technical_details (p.technical_details.getD "") with hq
    exact ⟨applyParsed_title p q, applyParsed_seller p q, applyParsed_price p q,
           applyParsed_description p q, applyParsed_technical_details p q,
           applyParsed_returns p q, applyParsed_delivery p q,
           applyParsed_warranty p q, applyParsed_category p q⟩

theorem enrich_ok_brand_present {p p1 : ProductData}
    (h : enrich_product_with_ai p = .ok p1) (hp : present p.brand = true) :
    p1.brand = p.brand := by
  unfold enrich_product_with_ai at h
  split at h
  · exact ift_ok_brand_present h hp
  · set q := ai_parse_technical_details (p.technical_details.getD "") with hq
    have hm : (applyParsed p q).brand = p.brand := by
      rw [applyParsed_brand, if_pos hp]
    have := ift_ok_brand_present h (by rw [hm]; exact hp)
    rw [this, hm]

theorem enrich_ok_usage_present {p p1 : ProductData}
    (h : enrich_product_with_ai p = .ok p1) (hp : present p.usage = true) :
    p1.usage = p.usage := by
  unfold enrich_product_with_ai at h
  split at h
  · exact ift_ok_usage_present h hp
  · set q := ai_parse_technical_details (p.technical_details.getD "") with hq
    have hm : (applyParsed p q).usage = p.usage := by
      rw [applyParsed_usage, if_pos hp]
    have := ift_ok_usage_present h (by rw [hm]; exact hp)
    rw [this, hm]

theorem enrich_ok_manufacturer_present {p p1 : ProductData}
    (h : enrich_product_with_ai p = .ok p1) (hp : present p.manufacturer = true) :
    p1.manufacturer = p.manufacturer := by
  unfold enrich_product_with_ai at h
  split at h
  · obtain ⟨b, u, rfl⟩ := ift_ok_shape h
    rfl
  · set q := ai_parse_technical_details (p.technical_details.getD "") with hq
    obtain ⟨b, u, rfl⟩ := ift_ok_shape h
    show (applyParsed p q).manufacturer = p.manufacturer
    rw [applyParsed_manufacturer, if_pos hp]

theorem enrich_ok_origin_country_present {p p1 : ProductData}
    (h : enrich_product_with_ai p = .ok p1) (hp : present p.origin_country = true) :
    p1.origin_country = p.origin_country := by
  unfold enrich_product_with_ai at h
  split at h
  · obtain ⟨b, u, rfl⟩ := ift_ok_shape h
    rfl
  · set q := ai_parse_technical_details (p.technical_details.getD "") with hq
    obtain ⟨b, u, rfl⟩ := ift_ok_shape h
    show (applyParsed p q).origin_country = p.origin_country
    rw [applyParsed_origin_country, if_pos hp]

theorem enrich_ok_ingredients_present {p p1 : ProductData}
    (h : enrich_product_with_ai p = .ok p1) (hp : present p.ingredients = true) :
    p1.ingredients = p.ingredients := by
  unfold enrich_product_with_ai at h
  split at h
  · obtain ⟨b, u, rfl⟩ := ift_ok_shape h
    rfl
  · set q := ai_parse_technical_details (p.technical_details.getD "") with hq
    obtain ⟨b, u, rfl⟩ := ift_ok_shape h
    show (applyParsed p q).ingredients = p.ingredients
    rw [applyParsed_ingredients, if_pos hp]

theorem enrich_ok_expiry_present {p p1 : ProductData}
    (h : enrich_product_with_ai p = .ok p1) (hp : present p.expiry = true) :
    p1.expiry = p.expiry := by
  unfold enrich_product_with_ai at h
  split at h
  · obtain ⟨b, u, rfl⟩ := ift_ok_shape h
    rfl
  · set q := ai_parse_technical_details (p.technical_details.getD "") with hq
    obtain ⟨b, u, rfl⟩ := ift_ok_shape h
    show (applyParsed p q).expiry = p.expiry
    rw [applyParsed_expiry, if_pos hp]

theorem enrich_ok_customer_care_contact_present {p p1 : ProductData}
    (h : enrich_product_with_ai p = .ok p1)
    (hp : present p.customer_care_contact = true) :
    p1.customer_care_contact = p.customer_care_contact := by
  unfold enrich_product_with_ai at h
  split at h
  · obtain ⟨b, u, rfl⟩ := ift_ok_shape h
    rfl
  · set q := ai_parse_technical_details (p.technical_details.getD "") with hq
    obtain ⟨b, u, rfl⟩ := ift_ok_shape h
    show (applyParsed p q).customer_care_contact = p.customer_care_contact
    rw [applyParsed_customer_care_contact, if_pos hp]

theorem enrich_ok_importer_present {p p1 : ProductData}
    (h : enrich_product_with_ai p = .ok p1) (hp : present p.importer = true) :
    p1.importer = p.importer := by
  unfold enrich_product_with_ai at h
  split at h
  · obtain ⟨b, u, rfl⟩ := ift_ok_shape h
    rfl
  · set q := ai_parse_technical_details (p.technical_details.getD "") with hq
    obtain ⟨b, u, rfl⟩ := ift_ok_shape h
    show (applyParsed p q).importer = p.importer
    rw [applyParsed_importer, if_pos hp]

theorem enrich_ok_packer_present {p p1 : ProductData}
    (h : enrich_product_with_ai p = .ok p1) (hp : present p.packer = true) :
    p1.packer = p.packer := by
  unfold enrich_product_with_ai at h
  split at h
  · obtain ⟨b, u, rfl⟩ := ift_ok_shape h
    rfl
  · set q := ai_parse_technical_details (p.technical_details.getD "") with hq
    obtain ⟨b, u, rfl⟩ := ift_ok_shape h
    show (applyParsed p q).packer = p.packer
    rw [applyParsed_packer, if_pos hp]

theorem enrich_idem {p p1 : ProductData} (h : enrich_product_with_ai p = .ok p1) :
    enrich_product_with_ai p1 = .ok p1 := by
  have htd : p1.technical_details = p.technical_details := (enrich_ok_fixed h).2.2.2.2.1
  unfold enrich_product_with_ai at h
  split at h
  · rename_i hc
    unfold enrich_product_with_ai
    rw [if_pos (by rw [htd]; exact hc)]
    exact ift_idem h
  · rename_i hc
    set q := ai_parse_technical_details (p.technical_details.getD "") with hq
    obtain ⟨b, u, hshape⟩ := ift_ok_shape h
    have hman : p1.manufacturer = (applyParsed p q).manufacturer := by rw [hshape]
    have hori : p1.origin_country = (applyParsed p q).origin_country := by rw [hshape]
    have hing : p1.ingredients = (applyParsed p q).ingredients := by rw [hshape]
    have hexp : p1.expiry = (applyParsed p q).expiry := by rw [hshape]
    have hccc : p1.customer_care_contact = (applyParsed p q).customer_care_contact := by
      rw [hshape]
    have himp : p1.importer = (applyParsed p q).importer := by rw [hshape]
    have hpak : p1.packer = (applyParsed p q).packer := by rw [hshape]
    have hfix : applyParsed p1 q = p1 := by
      apply productData_ext
      · exact applyParsed_title p1 q
      · rw [applyParsed_brand p1 q]
        exact merged_fix (fun hnp => ift_ok_brand_not_present h hnp) (applyParsed_brand p q)
      · rw [applyParsed_manufacturer p1 q]
        exact merged_fix (fun _ => hman) (applyParsed_manufacturer p q)
      · exact applyParsed_seller p1 q
      · exact applyParsed_price p1 q
      · exact applyParsed_description p1 q
      · exact applyParsed_technical_details p1 q
      · rw [applyParsed_origin_country p1 q]
        exact merged_fix (fun _ => hori) (applyParsed_origin_country p q)
      · rw [applyParsed_usage p1 q]
        exact merged_fix (fun hnp => ift_ok_usage_not_present h hnp) (applyParsed_usage p q)
      · exact applyParsed_returns p1 q
      · exact applyParsed_delivery p1 q
      · exact applyParsed_warranty p1 q
      · exact applyParsed_category p1 q
      · rw [applyParsed_ingredients p1 q]
        exact merged_fix (fun _ => hing) (applyParsed_ingredients p q)
      · rw [applyParsed_expiry p1 q]
        exact merged_fix (fun _ => hexp) (applyParsed_expiry p q)
      · rw [applyParsed_customer_care_contact p1 q]
        exact merged_fix (fun _ => hccc) (applyParsed_customer_care_contact p q)
      · rw [applyParsed_importer p1 q]
        exact merged_fix (fun _ => himp) (applyParsed_importer p q)
      · rw [applyParsed_packer p1 q]
        exact merged_fix (fun _ => hpak) (applyParsed_packer p q)
    unfold enrich_product_with_ai
    rw [if_neg (by rw [htd]; exact hc)]
    have hqq : ai_parse_technical_details (p1.technical_details.getD "") = q := by
      rw [htd, hq]
    rw [hqq, hfix]
    exact ift_idem h

/-! ## Lemmas about the rule engine -/

theorem stepRule_skip (p : ProductData) (r : Rule)
    (h : SKIPPED_RULE_IDS.contains r.id = true) :
    ∀ acc, stepRule p acc r = acc := by
  intro acc
  unfold stepRule
  rw [if_pos h]

theorem sevPenalty_nonneg (s : String) : 0 ≤ sevPenalty s := by
  unfold sevPenalty
  split_ifs <;> omega

theorem sevPenalty_other {s : String} (h1 : s ≠ "HIGH") (h2 : s ≠ "MEDIUM")
    (h3 : s ≠ "LOW") : sevPenalty s = 0 := by
  unfold sevPenalty
  rw [if_neg h1, if_neg h2, if_neg h3]

theorem stepRule_fst_le (p : ProductData) (acc : Int × List Violation) (r : Rule) :
    (stepRule p acc r).1 ≤ acc.1 := by
  have hs := sevPenalty_nonneg r.severity
  unfold stepRule
  split_ifs <;> simp [sub_le_self_iff, hs]

theorem foldl_fst_le (p : ProductData) :
    ∀ (rules : List Rule) (acc : Int × List Violation),
      (rules.foldl (stepRule p) acc).1 ≤ acc.1 := by
  intro rules
  induction rules with
  | nil => intro acc; simp
  | cons r rest ih =>
    intro acc
    simp only [List.foldl_cons]
    exact le_trans (ih (stepRule p acc r)) (stepRule_fst_le p acc r)

/-! ## Claim theorems -/

/-- C1 (counterexample): an advisory rule (`EC-10`) whose only required field is
missing yields the advisory LOW violation, but the risk score stays at 100 —
the code `continue`s past the penalty line, so the claimed `100 - 5 = 95` is
false on the code. -/
theorem C1_counterexample :
    evaluate_compliance [advRule] emptyProduct =
      .ok ⟨100, [⟨"EC-10", "LOW", "Disclose seller (advisory)", ""⟩], emptyProduct⟩ ∧
    (100 : Int) ≠ 100 - 5 := by
  exact ⟨rfl, by decide⟩

/-- C1 (amended): when a non-skipped rule's id is in the advisory set, its
category gate passes and its missing-field set is non-empty, the engine emits a
violation with severity LOW and an "(advisory)" marker in the description, but
subtracts no penalty for it: a product with exactly one such advisory violation
and no others scores 100. -/
theorem C1_advisory_no_penalty (r : Rule) (p p1 : ProductData)
    (he : enrich_product_with_ai p = .ok p1)
    (h1 : ADVISORY_RULE_IDS.contains r.id = true)
    (h2 : SKIPPED_RULE_IDS.contains r.id = false)
    (h3 : category_gate r p1 = true)
    (h4 : missingFields p1 r ≠ []) :
    evaluate_compliance [r] p =
      .ok ⟨100, [⟨r.id, "LOW", r.title ++ " (advisory)", r.suggestion⟩], p1⟩ := by
  unfold evaluate_compliance
  rw [he]
  simp only [List.foldl_cons, List.foldl_nil]
  unfold stepRule
  rw [if_neg (by rw [h2]; exact Bool.false_ne_true),
      if_neg (by rw [h3]; simp), if_neg h4, if_pos h1]
  simp

/-- C1 (witness): the amended theorem applied at the concrete advisory rule and
the empty product. -/
theorem C1_witness :
    evaluate_compliance [advRule] emptyProduct =
      .ok ⟨100, [⟨"EC-10", "LOW", "Disclose seller (advisory)", ""⟩], emptyProduct⟩ :=
  C1_advisory_no_penalty advRule emptyProduct emptyProduct
    rfl (by decide) (by decide) (by decide) (by decide)

/-- C2: a product whose title is the whitespace-only string `" "` and whose
brand is absent makes the rule engine raise `IndexError` from
`title.split()[0]` inside `_infer_from_title` — contradicting the spec's
"never raises" guarantee (the claim is right, the code is wrong). -/
theorem C2_whitespace_title_raises :
    evaluate_compliance [] wsTitleProduct =
      .error "IndexError: list index out of range" := rfl

/-- C3 (counterexample): the field resolver `_field_exists` itself returns
`false` for the unverifiable field `ingredients` on a product holding no data
for it — the claimed "always returns true" does not hold of the resolver
function. -/
theorem C3_counterexample :
    field_exists emptyProduct "ingredients" = false := rfl

/-- C3 (amended): unverifiable fields are excluded from the missing-field
computation of the rule engine — for every product and rule, no unverifiable
field ever occurs in a missing-field set, so such fields behave as present for
rule-checking purposes regardless of underlying data. -/
theorem C3_unverifiable_excluded (p : ProductData) (r : Rule) (f : String)
    (h : UNVERIFIABLE_FIELDS.contains f = true) : f ∉ missingFields p r := by
  intro hmem
  have h2 := (List.mem_filter.mp hmem).2
  rw [h] at h2
  simp at h2

/-- C3 (witness): the amended theorem applied at `ingredients` and a rule that
requires exactly that field of the empty product. -/
theorem C3_witness :
    "ingredients" ∉ missingFields emptyProduct ingRule :=
  C3_unverifiable_excluded emptyProduct ingRule "ingredients" (by decide)

/-- C4: for every rule table and product, when the engine returns, the risk
score lies in the closed interval `[0, 100]`. -/
theorem C4_risk_score_bounds (rules : List Rule) (p : ProductData) (out : EvalOut)
    (h : evaluate_compliance rules p = .ok out) :
    0 ≤ out.risk_score ∧ out.risk_score ≤ 100 := by
  unfold evaluate_compliance at h
  cases heq : enrich_product_with_ai p with
  | error e => rw [heq] at h; cases h
  | ok p1 =>
    rw [heq] at h
    simp only [Except.ok.injEq] at h
    have hb := foldl_fst_le p1 rules (100, [])
    rw [← h]
    constructor
    · exact le_max_left 0 _
    · simp only [EvalOut.risk_score]
      omega

/-- C4 (witness): the bounds at the empty rule table and the empty product. -/
theorem C4_witness :
    (0 : Int) ≤ (100 : Int) ∧ (100 : Int) ≤ (100 : Int) :=
  C4_risk_score_bounds [] emptyProduct ⟨100, [], emptyProduct⟩ rfl

/-- C5: the enrichment step never overwrites a non-empty field — for every
product and attribute name, a field holding a truthy value before enrichment
holds the same value afterwards. -/
theorem C5_enrich_preserves_nonempty (p p1 : ProductData) (f : String)
    (h : enrich_product_with_ai p = .ok p1)
    (hp : present (getAttr p f) = true) :
    getAttr p1 f = getAttr p f := by
  by_cases e1 : f = "title"
  · subst e1; exact (enrich_ok_fixed h).1
  by_cases e2 : f = "brand"
  · subst e2; exact enrich_ok_brand_present h hp
  by_cases e3 : f = "manufacturer"
  · subst e3; exact enrich_ok_manufacturer_present h hp
  by_cases e4 : f = "seller"
  · subst e4; exact (enrich_ok_fixed h).2.1
  by_cases e5 : f = "price"
  · subst e5; exact (enrich_ok_fixed h).2.2.1
  by_cases e6 : f = "description"
  · subst e6; exact (enrich_ok_fixed h).2.2.2.1
  by_cases e7 : f = "technical_details"
  · subst e7; exact (enrich_ok_fixed h).2.2.2.2.1
  by_cases e8 : f = "origin_country"
  · subst e8; exact enrich_ok_origin_country_present h hp
  by_cases e9 : f = "usage"
  · subst e9; exact enrich_ok_usage_present h hp
  by_cases e10 : f = "returns"
  · subst e10; exact (enrich_ok_fixed h).2.2.2.2.2.1
  by_cases e11 : f = "delivery"
  · subst e11; exact (enrich_ok_fixed h).2.2.2.2.2.2.1
  by_cases e12 : f = "warranty"
  · subst e12; exact (enrich_ok_fixed h).2.2.2.2.2.2.2.1
  by_cases e13 : f = "category"
  · subst e13; exact (enrich_ok_fixed h).2.2.2.2.2.2.2.2
  by_cases e14 : f = "ingredients"
  · subst e14; exact enrich_ok_ingredients_present h hp
  by_cases e15 : f = "expiry"
  · subst e15; exact enrich_ok_expiry_present h hp
  by_cases e16 : f = "customer_care_contact"
  · subst e16; exact enrich_ok_customer_care_contact_present h hp
  by_cases e17 : f = "importer"
  · subst e17; exact enrich_ok_importer_present h hp
  by_cases e18 : f = "packer"
  · subst e18; exact enrich_ok_packer_present h hp
  unfold getAttr at hp
  rw [if_neg e1, if_neg e2, if_neg e3, if_neg e4, if_neg e5, if_neg e6, if_neg e7,
      if_neg (by exact e8), if_neg e9, if_neg e10, if_neg e11, if_neg e12, if_neg e13,
      if_neg e14, if_neg e15, if_neg e16, if_neg e17, if_neg e18] at hp
  simp [present] at hp

/-- C5 (witness): a product with an existing brand keeps it through enrichment
even though the technical details offer a competing brand. -/
theorem C5_witness :
    getAttr zetaProduct "brand" = getAttr zetaProduct "brand" :=
  C5_enrich_preserves_nonempty zetaProduct zetaProduct "brand" rfl (by decide)

/-- C6: evaluating the same product twice in sequence — the second call seeing
the product as mutated by the first — yields the identical violation sequence,
risk score and product. -/
theorem C6_evaluate_idempotent (rules : List Rule) (p : ProductData) (out : EvalOut)
    (h : evaluate_compliance rules p = .ok out) :
    evaluate_compliance rules out.product = .ok out := by
  unfold evaluate_compliance at h ⊢
  cases heq : enrich_product_with_ai p with
  | error e => rw [heq] at h; cases h
  | ok p1 =>
    rw [heq] at h
    simp only [Except.ok.injEq] at h
    have hp : out.product = p1 := by rw [← h]
    rw [hp, enrich_idem heq, ← h]

/-- C6 (witness): the determinism theorem applied at the empty rule table and
a product enriched from its title. -/
theorem C6_witness :
    evaluate_compliance [] (EvalOut.product ⟨100, [], lotionEnriched⟩) =
      .ok ⟨100, [], lotionEnriched⟩ :=
  C6_evaluate_idempotent [] lotionProduct ⟨100, [], lotionEnriched⟩ rfl

/-- C7: a rule whose id is in the skip set has no effect at all on the
evaluation — removing it from any position of the rule table leaves the result
(violations and score) unchanged, no matter which required fields are absent. -/
theorem C7_skip_set_no_effect (p : ProductData) (pre post : List Rule) (r : Rule)
    (h : SKIPPED_RULE_IDS.contains r.id = true) :
    evaluate_compliance (pre ++ r :: post) p = evaluate_compliance (pre ++ post) p := by
  unfold evaluate_compliance
  cases heq : enrich_product_with_ai p with
  | error e => rfl
  | ok p1 =>
    simp only [List.foldl_append, List.foldl_cons, stepRule_skip p1 r h]

/-- C7 (witness): a skipped rule requiring an absent field is dropped without a
violation or penalty. -/
theorem C7_witness :
    evaluate_compliance [skipRule] emptyProduct = evaluate_compliance [] emptyProduct :=
  C7_skip_set_no_effect emptyProduct [] [] skipRule (by decide)

/-- C10: a non-skipped, non-advisory rule whose severity string is none of
HIGH, MEDIUM, LOW and whose gate passes with a non-empty missing-field set
still emits a violation carrying that severity string unchanged, while the
accumulated score is left unchanged (the penalty lookup defaults to 0). -/
theorem C10_unknown_severity (p : ProductData) (acc : Int × List Violation) (r : Rule)
    (h1 : SKIPPED_RULE_IDS.contains r.id = false)
    (h2 : ADVISORY_RULE_IDS.contains r.id = false)
    (h3 : category_gate r p = true)
    (h4 : missingFields p r ≠ [])
    (h5 : r.severity ≠ "HIGH") (h6 : r.severity ≠ "MEDIUM") (h7 : r.severity ≠ "LOW") :
    stepRule p acc r =
      (acc.1, acc.2 ++ [⟨r.id, r.severity,
        r.title ++ " – missing: " ++ String.intercalate ", " (missingFields p r),
        r.suggestion⟩]) := by
  unfold stepRule
  rw [sevPenalty_other h5 h6 h7,
      if_neg (by rw [h1]; exact Bool.false_ne_true),
      if_neg (by rw [h3]; simp), if_neg h4,
      if_neg (by rw [h2]; exact Bool.false_ne_true), sub_zero]

/-! ## Lemmas for the extractor tie-break claim -/

theorem capAfterColon_ne_nil {t g : List Char} (h : capAfterColon t = some g) :
    g ≠ [] := by
  unfold capAfterColon at h
  split at h
  · cases hw : (t.takeWhile isWs).getLast? with
    | none => rw [hw] at h; cases h
    | some w =>
      rw [hw] at h
      injection h with h
      rw [← h]
      simp
  · rename_i c rest2 heq
    split at h
    · cases hw : (t.takeWhile isWs).getLast? with
      | none => rw [hw] at h; cases h
      | some w =>
        rw [hw] at h
        injection h with h
        rw [← h]
        simp
    · rename_i hbar
      simp only [Option.some.injEq] at h
      rw [← h, heq]
      simp only [List.takeWhile_cons]
      rw [if_pos (by simpa using hbar)]
      simp

theorem matchPat_ne_nil {ws : List (List Char)} {s g : List Char}
    (h : matchPat ws s = some g) : g ≠ [] := by
  unfold matchPat at h
  split at h
  · cases h
  · split at h
    · exact capAfterColon_ne_nil h
    · cases h

theorem originGroups_shape {t : List Char} {gp : Option String × Option String}
    (h : originGroups t = some gp) :
    (∃ g, gp = (some g, none) ∧ g ≠ "") ∨ (∃ g, gp = (none, some g) ∧ g ≠ "") := by
  induction t with
  | nil => cases h
  | cons c rest ih =>
    unfold originGroups at h
    split at h
    · rename_i g hg
      simp only [Option.some.injEq] at h
      exact Or.inl ⟨String.mk g, h.symm, stringMk_ne_empty (matchPat_ne_nil hg)⟩
    · split at h
      · rename_i g hg
        simp only [Option.some.injEq] at h
        exact Or.inr ⟨String.mk g, h.symm, stringMk_ne_empty (matchPat_ne_nil hg)⟩
      · exact ih h

/-- C8: the origin field of the heuristic parse is the normalization of the
first non-absent captured group of the leftmost match of the two-alternative
origin pattern, groups checked left to right; when the search finds no match
the field is absent. -/
theorem C8_origin_first_group (s : String) :
    (heuristic_parse s).origin_country =
      (match originGroups (toLowerL s.data) with
       | none => none
       | some gp =>
         match firstNonAbsent [gp.1, gp.2] with
         | none => none
         | some g => normalize_text (some g)) := by
  show (match originGroups (toLowerL s.data) with
        | none => none
        | some gp => grabGroups [gp.1, gp.2]) = _
  cases ho : originGroups (toLowerL s.data) with
  | none => rfl
  | some gp =>
    rcases originGroups_shape ho with ⟨g, rfl, hg⟩ | ⟨g, rfl, hg⟩
    · show grabGroups [some g, none] = normalize_text (some g)
      unfold grabGroups
      rw [if_neg hg]
    · show grabGroups [none, some g] = normalize_text (some g)
      unfold grabGroups
      unfold grabGroups
      rw [if_neg hg]

/-- C10 (witness): a rule with severity `CRITICAL` at the empty product emits
the violation with severity `CRITICAL` and leaves the score accumulator at
100. -/
theorem C10_witness :
    stepRule emptyProduct (100, []) critRule =
      (100, [⟨"R9", "CRITICAL", "T – missing: seller", ""⟩]) :=
  (C10_unknown_severity emptyProduct (100, []) critRule
    (by decide) (by decide) (by decide) (by decide)
    (by decide) (by decide) (by decide)).trans (by decide)

/-! ## Lemmas for the normalizer claim -/

theorem noWsRun_tail {c : Char} {l : List Char} (h : noWsRun (c :: l) = true) :
    noWsRun l = true := by
  cases l with
  | nil => rfl
  | cons d rest =>
    unfold noWsRun at h
    exact (Bool.and_eq_true_iff.mp h).2

theorem mem_collapseWsAux :
    ∀ (l : List Char) (b : Bool) (c : Char),
      c ∈ collapseWsAux b l → c = ' ' ∨ (c ∈ l ∧ isWs c = false) := by
  intro l
  induction l with
  | nil =>
    intro b c hc
    cases hc
  | cons d rest ih =>
    intro b c hc
    unfold collapseWsAux at hc
    by_cases hd : isWs d
    · rw [if_pos hd] at hc
      cases b with
      | true =>
        rw [if_pos rfl] at hc
        rcases ih true c hc with h2 | h2
        · exact Or.inl h2
        · exact Or.inr ⟨List.mem_cons_of_mem d h2.1, h2.2⟩
      | false =>
        rw [if_neg (by simp)] at hc
        rcases List.mem_cons.mp hc with h2 | h2
        · exact Or.inl h2
        · rcases ih true c h2 with h3 | h3
          · exact Or.inl h3
          · exact Or.inr ⟨List.mem_cons_of_mem d h3.1, h3.2⟩
    · rw [if_neg hd] at hc
      rcases List.mem_cons.mp hc with h2 | h2
      · subst h2
        exact Or.inr ⟨List.mem_cons_self c rest, by simpa using hd⟩
      · rcases ih false c h2 with h3 | h3
        · exact Or.inl h3
        · exact Or.inr ⟨List.mem_cons_of_mem d h3.1, h3.2⟩

theorem collapse_props :
    ∀ (l : List Char) (b : Bool),
      noWsRun (collapseWsAux b l) = true ∧
      (b = true → ∀ c, (collapseWsAux b l).head? = some c → isWs c = false) := by
  intro l
  induction l with
  | nil =>
    intro b
    refine ⟨rfl, ?_⟩
    intro _ c hc
    cases hc
  | cons d rest ih =>
    intro b
    unfold collapseWsAux
    by_cases hd : isWs d
    · rw [if_pos hd]
      cases b with
      | true =>
        rw [if_pos rfl]
        refine ⟨(ih true).1, ?_⟩
        intro _ c hc
        exact (ih true).2 rfl c hc
      | false =>
        rw [if_neg (by simp)]
        constructor
        · cases hout : collapseWsAux true rest with
          | nil => rfl
          | cons e out2 =>
            have he : isWs e = false :=
              (ih true).2 rfl e (by rw [hout]; rfl)
            unfold noWsRun
            rw [he]
            simp only [Bool.and_false, Bool.not_false, Bool.true_and]
            have := (ih true).1
            rw [hout] at this
            exact this
        · intro hb
          cases hb
    · rw [if_neg hd]
      have hdf : isWs d = false := by simpa using hd
      constructor
      · cases hout : collapseWsAux false rest with
        | nil => rfl
        | cons e out2 =>
          unfold noWsRun
          rw [hdf]
          simp only [Bool.false_and, Bool.not_false, Bool.true_and]
          have := (ih false).1
          rw [hout] at this
          exact this
      · intro _ c hc
        have hdc : d = c := by simpa using hc
        rw [← hdc]
        exact hdf

theorem head_dropWhileWs :
    ∀ (l : List Char) (c : Char),
      (l.dropWhile isWs).head? = some c → isWs c = false := by
  intro l
  induction l with
  | nil =>
    intro c hc
    cases hc
  | cons d rest ih =>
    intro c hc
    rw [List.dropWhile_cons] at hc
    by_cases hd : isWs d
    · rw [if_pos (by simpa using hd)] at hc
      exact ih c hc
    · rw [if_neg (by simpa using hd)] at hc
      injection hc with hc
      rw [← hc]
      simpa using hd

theorem mem_dropWhileWs :
    ∀ (l : List Char) (c : Char), c ∈ l.dropWhile isWs → c ∈ l := by
  intro l
  induction l with
  | nil =>
    intro c hc
    cases hc
  | cons d rest ih =>
    intro c hc
    rw [List.dropWhile_cons] at hc
    by_cases hd : isWs d
    · rw [if_pos (by simpa using hd)] at hc
      exact List.mem_cons_of_mem d (ih c hc)
    · rw [if_neg (by simpa using hd)] at hc
      exact hc

theorem noWsRun_dropWhileWs :
    ∀ (l : List Char), noWsRun l = true → noWsRun (l.dropWhile isWs) = true := by
  intro l
  induction l with
  | nil =>
    intro _
    rfl
  | cons d rest ih =>
    intro h
    rw [List.dropWhile_cons]
    by_cases hd : isWs d
    · rw [if_pos (by simpa using hd)]
      exact ih (noWsRun_tail h)
    · rw [if_neg (by simpa using hd)]
      exact h

theorem dropTrailingWs_head :
    ∀ (l : List Char),
      dropTrailingWs l = [] ∨ (dropTrailingWs l).head? = l.head? := by
  intro l
  cases l with
  | nil => exact Or.inl rfl
  | cons c rest =>
    unfold dropTrailingWs
    cases h : dropTrailingWs rest with
    | nil =>
      by_cases hc : isWs c
      · rw [if_pos hc]
        exact Or.inl rfl
      · rw [if_neg hc]
        exact Or.inr rfl
    | cons e r2 =>
      exact Or.inr rfl

theorem mem_dropTrailingWs :
    ∀ (l : List Char) (c : Char), c ∈ dropTrailingWs l → c ∈ l := by
  intro l
  induction l with
  | nil =>
    intro c hc
    cases hc
  | cons d rest ih =>
    intro c hc
    unfold dropTrailingWs at hc
    cases h : dropTrailingWs rest with
    | nil =>
      rw [h] at hc
      by_cases hd : isWs d
      · rw [if_pos hd] at hc
        cases hc
      · rw [if_neg hd] at hc
        rcases List.mem_cons.mp hc with h2 | h2
        · subst h2
          exact List.mem_cons_self c rest
        · cases h2
    | cons e r2 =>
      rw [h] at hc
      rcases List.mem_cons.mp hc with h2 | h2
      · subst h2
        exact List.mem_cons_self c rest
      · exact List.mem_cons_of_mem d (ih c (h ▸ h2))

theorem dropTrailingWs_getLast :
    ∀ (l : List Char) (c : Char),
      (dropTrailingWs l).getLast? = some c → isWs c = false := by
  intro l
  induction l with
  | nil =>
    intro c hc
    cases hc
  | cons d rest ih =>
    intro c hc
    unfold dropTrailingWs at hc
    cases h : dropTrailingWs rest with
    | nil =>
      rw [h] at hc
      by_cases hd : isWs d
      · rw [if_pos hd] at hc
        cases hc
      · rw [if_neg hd] at hc
        have : c = d := by simpa using hc.symm
        rw [this]
        simpa using hd
    | cons e r2 =>
      rw [h] at hc
      rw [List.getLast?_cons_cons] at hc
      exact ih c (h ▸ hc)

theorem dropTrailingWs_noWsRun :
    ∀ (l : List Char), noWsRun l = true → noWsRun (dropTrailingWs l) = true := by
  intro l
  induction l with
  | nil =>
    intro _
    rfl
  | cons d rest ih =>
    intro hl
    unfold dropTrailingWs
    cases h : dropTrailingWs rest with
    | nil =>
      by_cases hd : isWs d
      · rw [if_pos hd]
        rfl
      · rw [if_neg hd]
        rfl
    | cons e r2 =>
      have h1 : noWsRun (e :: r2) = true := h ▸ ih (noWsRun_tail hl)
      rcases dropTrailingWs_head rest with h2 | h2
      · rw [h] at h2
        cases h2
      · rw [h] at h2
        cases rest with
        | nil => cases h2
        | cons f rrest =>
          have hef : e = f := by simpa using h2
          subst hef
          unfold noWsRun at hl
          have hpair := (Bool.and_eq_true_iff.mp hl).1
          unfold noWsRun
          rw [hpair]
          simpa using h1

/-- C9: the normalizer is total; absent or empty input yields absent; any other
string yields the string lowercased with every character outside
`{word, whitespace, -, ., ,}` removed, whitespace runs collapsed to a single
space, and ends trimmed — so the output's characters are all kept characters,
its only whitespace is single interior spaces, and it neither starts nor ends
with whitespace. -/
theorem C9_normalizer_contract (v : Option String) :
    ((v = none ∨ v = some "") → normalize_text v = none) ∧
    (∀ s, v = some s → s ≠ "" →
      ∃ t, normalize_text v = some t ∧
        t.data = stripL (collapseWsAux false ((toLowerL s.data).filter keepChar)) ∧
        (∀ c ∈ t.data, keepChar c = true) ∧
        (∀ c ∈ t.data, isWs c = true → c = ' ') ∧
        noWsRun t.data = true ∧
        (∀ c, t.data.head? = some c → isWs c = false) ∧
        (∀ c, t.data.getLast? = some c → isWs c = false)) := by
  constructor
  · rintro (rfl | rfl) <;> rfl
  · rintro s rfl hs
    refine ⟨String.mk (stripL (collapseWsAux false ((toLowerL s.data).filter keepChar))),
      ?_, rfl, ?_, ?_, ?_, ?_, ?_⟩
    · simp only [normalize_text]
      rw [if_neg hs]
    · intro c hc
      have hmem : c ∈ collapseWsAux false ((toLowerL s.data).filter keepChar) :=
        mem_dropWhileWs _ c (mem_dropTrailingWs _ c hc)
      rcases mem_collapseWsAux _ false c hmem with h2 | h2
      · rw [h2]
        rfl
      · exact (List.mem_filter.mp h2.1).2
    · intro c hc hws
      have hmem : c ∈ collapseWsAux false ((toLowerL s.data).filter keepChar) :=
        mem_dropWhileWs _ c (mem_dropTrailingWs _ c hc)
      rcases mem_collapseWsAux _ false c hmem with h2 | h2
      · exact h2
      · rw [h2.2] at hws
        cases hws
    · exact dropTrailingWs_noWsRun _
        (noWsRun_dropWhileWs _ (collapse_props _ false).1)
    · intro c hc
      rcases dropTrailingWs_head
          ((collapseWsAux false ((toLowerL s.data).filter keepChar)).dropWhile isWs)
        with h2 | h2
      · unfold stripL at hc
        rw [h2] at hc
        cases hc
      · unfold stripL at hc
        rw [h2] at hc
        exact head_dropWhileWs _ c hc
    · intro c hc
      exact dropTrailingWs_getLast _ c hc

/-- C9 (witness): the contract applied at a concrete messy string. -/
theorem C9_witness :
    ∃ t, normalize_text (some "  A,b!  C\t d ") = some t ∧
      t.data = stripL (collapseWsAux false
        ((toLowerL "  A,b!  C\t d ".data).filter keepChar)) ∧
      (∀ c ∈ t.data, keepChar c = true) ∧
      (∀ c ∈ t.data, isWs c = true → c = ' ') ∧
      noWsRun t.data = true ∧
      (∀ c, t.data.head? = some c → isWs c = false) ∧
      (∀ c, t.data.getLast? = some c → isWs c = false) :=
  (C9_normalizer_contract (some "  A,b!  C\t d ")).2
    "  A,b!  C\t d " rfl (by decide)

end SafeBuy
